import Mathlib

/-!
Verification development for the mbspbs10pc cohort-labeling pipeline.

The Python sources `mbspbs10pc/diabete_utils.py` and `mbspbs10pc/raw_data_utils.py`
are embedded shallowly:

* pandas DataFrames of PBS claims become lists of `PbsRow`;
* the per-year per-patient dictionaries produced by `worker` become
  association lists `DDYear = List (PId × Record)`;
* Python sets (the concession set `cc`, the metformin item set, the
  diabetes-drug code set) become `Finset`s;
* `pd.to_datetime(x, format=...)` is an input-derived injection of date
  strings into an ordered type; every use in the source parses before
  comparing or taking minima, so it is embedded as an explicit parameter
  `parse : String → Int`;
* `df.sort_values(by=...)` is embedded as `List.insertionSort` on the sort
  key (a deterministic, stable comparison sort);
* Python dict values `min(...)` over a possibly-empty list are embedded with
  `List.min?` (the pipeline only evaluates them on nonempty records).

The repository targets Python 2 (its scripts import `cPickle` and index the
result of `filter`), so `map` in `find_metafter` returns a list and
`np.where(map(lambda x: not x, mask))[0]` is the array of positions of the
non-metformin items, as the surrounding comments describe.
-/

namespace Mbspbs

/-- Patient identifiers (`PTNT_ID`, also `PIN` in the MBS files). -/
abbrev PId := Nat

/-- The per-patient value stored by `worker` in `diabete_utils.py`:
`{'SPPLY_DT': [...], 'ITM_CD': [...]}`, the supply-date strings and item
codes of the patient's qualifying rows, in row order. -/
structure Record where
  SPPLY_DT : List String
  ITM_CD : List String
deriving DecidableEq

/-- One year's result of `find_diabetes_drugs_users`: a dictionary keyed by
`PTNT_ID`, embedded as an association list. -/
abbrev DDYear := List (PId × Record)

/-- The keys of a `DDYear` dictionary. -/
def ddKeys (d : DDYear) : List PId := d.map Prod.fst

/-- A row of a PBS yearly claims file after the column selection in
`find_diabetics` (`ITM_CD`, `PTNT_ID`, `SPPLY_DT`, `PTNT_CNTRBTN_AMT`,
`BNFT_AMT`); the two amounts are embedded as integers. -/
structure PbsRow where
  PTNT_ID : PId
  SPPLY_DT : String
  ITM_CD : String
  PTNT_CNTRBTN_AMT : Int
  BNFT_AMT : Int
deriving DecidableEq

/-- `curr_pbs.loc[curr_pbs['PTNT_ID'] == pin, :]` in `worker`. -/
def patientChunk (pbsRows : List PbsRow) (pin : PId) : List PbsRow :=
  pbsRows.filter (fun r => r.PTNT_ID == pin)

/-- The optional co-payment filter in `worker`:
`chunk[chunk['PTNT_CNTRBTN_AMT'] + chunk['BNFT_AMT'] >= co_payment]`. -/
def copaymentFilter (coPayment : Option Int) (chunk : List PbsRow) : List PbsRow :=
  match coPayment with
  | none => chunk
  | some c => chunk.filter (fun r => decide (c ≤ r.PTNT_CNTRBTN_AMT + r.BNFT_AMT))

/-- The body of the loop in `worker` for one `pin`: the record saved into the
shared `results` dictionary, or `none` when no qualifying row remains
(`if len(chunk) > 0`). -/
def workerEntry (pbsRows : List PbsRow) (coPayment : Option Int) (pin : PId) : Option Record :=
  let chunk := copaymentFilter coPayment (patientChunk pbsRows pin)
  if chunk.length > 0 then
    some ⟨chunk.map (fun r => r.SPPLY_DT), chunk.map (fun r => r.ITM_CD)⟩
  else none

/-- `worker(i, pbs, split, results, co_payment)` from `diabete_utils.py`: the
entries the worker writes for its shard, keyed by `PTNT_ID` (the progress bar
is a side effect with no functional content and is not modelled). -/
def worker (pbsRows : List PbsRow) (split : List PId) (coPayment : Option Int) : DDYear :=
  split.filterMap (fun pin => (workerEntry pbsRows coPayment pin).map (fun r => (pin, r)))

/-- The section lengths `np.array_split` gives to an array of length `L`
split into `n` parts: the first `L % n` parts get `L / n + 1` elements, the
rest `L / n`. -/
def splitSizes (L n : Nat) : List Nat :=
  (List.range n).map (fun i => if i < L % n then L / n + 1 else L / n)

/-- Cut a list into consecutive chunks of the given sizes. -/
def takeChunks : List Nat → List α → List (List α)
  | [], _ => []
  | s :: ss, xs => xs.take s :: takeChunks ss (xs.drop s)

/-- `np.array_split(xs, n)`: `n` consecutive near-equal chunks. -/
def arraySplit (xs : List α) (n : Nat) : List (List α) :=
  takeChunks (splitSizes xs.length n) xs

/-- `np.unique`: the sorted list of distinct values. -/
def npUnique (xs : List PId) : List PId :=
  List.insertionSort (fun a b => a ≤ b) xs.dedup

/-- `find_diabetes_drugs_users(pbs, co_payment, n_jobs)`: split the sorted
unique patient ids into `n_jobs` shards, run `worker` on each shard and merge
the shard results into one dictionary (the `Manager().dict()`), embedded as
the concatenation of the shard association lists. -/
def find_diabetes_drugs_users (pbsRows : List PbsRow) (coPayment : Option Int)
    (nJobs : Nat) : DDYear :=
  let ptntIds := npUnique (pbsRows.map (fun r => r.PTNT_ID))
  ((arraySplit ptntIds nJobs).map (fun split => worker pbsRows split coPayment)).flatten

/-- `np.arange(2008, target_year)[::-1]`: the prior years scanned backward in
strict descending order by `find_positive_samples`. -/
def yearsBefore (targetYear : Nat) : List Nat :=
  (List.range' 2008 (targetYear - 2008)).reverse

/-- `find_positive_samples(dd, cc, target_year)` from `diabete_utils.py`.
The Python `dd` is keyed by the file name `PBS_SAMPLE_10PCT_<year>.csv`; it is
embedded as a family indexed by the year itself.  The result maps each
positive patient id to `min(map(pd.to_datetime, _dd[k]['SPPLY_DT']))`. -/
def find_positive_samples (dd : Nat → DDYear) (cc : Finset PId) (parse : String → Int)
    (targetYear : Nat) : List (PId × Option Int) :=
  let tdd := dd targetYear
  let init := (ddKeys tdd).filter (fun p => decide (p ∈ cc))
  let pos := (yearsBefore targetYear).foldl
    (fun acc year =>
      let curr := (ddKeys (dd year)).filter (fun q => decide (q ∈ cc))
      acc.filter (fun p => decide (p ∉ curr))) init
  pos.map (fun k => (k, (((tdd.lookup k).getD ⟨[], []⟩).SPPLY_DT.map parse).min?))

/-- The data of one PBS file as `find_negative_samples` consumes it: its year
(recovered from the file name) and the full `PTNT_ID` column read from disk. -/
structure PbsFileData where
  year : Nat
  claimants : List PId
deriving DecidableEq

/-- `find_negative_samples(pbs_files, dd, cc)` from `diabete_utils.py`:
accumulate the overall concessional diabetic set, then union over the files
the concessional claimants not in that set. -/
def find_negative_samples (pbsFiles : List PbsFileData) (dd : Nat → DDYear)
    (cc : Finset PId) : Finset PId :=
  let diabeticOverall :=
    (pbsFiles.foldl (fun acc f => acc ∪ (ddKeys (dd f.year)).toFinset) ∅) ∩ cc
  pbsFiles.foldl
    (fun acc f => acc ∪ ((f.claimants.toFinset ∩ cc).filter (fun p => p ∉ diabeticOverall))) ∅

/-- The DataFrame `df` built by `find_metonly`: one row
`(PTNT_ID, ITM_CD, SPPLY_DT)` per zipped item/date pair of each positive
patient's target-year record, the date kept as its raw string. -/
def metonlyDf (tdd : DDYear) (pos : List PId) : List (PId × String × String) :=
  pos.flatMap (fun idx =>
    let r := (tdd.lookup idx).getD ⟨[], []⟩
    (r.ITM_CD.zip r.SPPLY_DT).map (fun x => (idx, x.1, x.2)))

/-- The DataFrame `df` built by `find_metafter`: as `metonlyDf` but with the
date parsed at insertion (`pd.to_datetime(dt, format='%d%b%Y')`). -/
def metafterDf (tdd : DDYear) (pos : List PId) (parse : String → Int) :
    List (PId × String × Int) :=
  pos.flatMap (fun idx =>
    let r := (tdd.lookup idx).getD ⟨[], []⟩
    (r.ITM_CD.zip r.SPPLY_DT).map (fun x => (idx, x.1, parse x.2)))

/-- The rows of `df` belonging to one patient
(`df.loc[df['PTNT_ID'] == idx]` in `find_metafter`). -/
def rowsOf (df : List (PId × String × Int)) (idx : PId) : List (PId × String × Int) :=
  df.filter (fun r => r.1 == idx)

/-- `tmp.sort_values(by='SPPLY_DT')`: sort a patient's rows by parsed date. -/
def sortByDate (rows : List (PId × String × Int)) : List (PId × String × Int) :=
  List.insertionSort (fun a b => a.2.2 ≤ b.2.2) rows

/-- `np.where(map(lambda x: not x, mask))[0][0]` used through
`len(mask) > 0 and not (mask[0] == 0)` in `find_metafter`: the position of the
first non-metformin item of the date-sorted rows, if any. -/
def firstNonMetIdx (met : Finset String) (rows : List (PId × String × Int)) : Option Nat :=
  (sortByDate rows).findIdx? (fun r => decide (r.2.1 ∉ met))

/-- `find_metafter(dd, pos_id, target_year)` from `diabete_utils.py`, given
the target-year dictionary `tdd`, the metformin item set and the positive
ids.  It keeps the patients with at least one metformin item whose first
non-metformin item in date order is not at position 0, and maps each to the
minimum parsed date of the patient's whole target-year record. -/
def find_metafter (tdd : DDYear) (met : Finset String) (pos : List PId)
    (parse : String → Int) : List (PId × Option Int) :=
  let df := metafterDf tdd pos parse
  let metonce := (df.filterMap (fun r => if r.2.1 ∈ met then some r.1 else none)).dedup
  let metafterIds := metonce.filter (fun idx =>
    match firstNonMetIdx met (rowsOf df idx) with
    | some i => decide (i ≠ 0)
    | none => false)
  metafterIds.map (fun idx => (idx, ((rowsOf df idx).map (fun r => r.2.2)).min?))

/-- `find_metonly(dd, pos_id, target_year)` from `diabete_utils.py`: the
patients all of whose target-year items are metformin items
(`set(items).issubset(met_items)`), each mapped to the minimum parsed date of
their whole target-year record. -/
def find_metonly (tdd : DDYear) (met : Finset String) (pos : List PId)
    (parse : String → Int) : List (PId × Option Int) :=
  let df := metonlyDf tdd pos
  let metonlyIds := (df.map (fun r => r.1)).dedup.filter (fun idx =>
    (df.filter (fun r => r.1 == idx)).all (fun r => decide (r.2.1 ∈ met)))
  metonlyIds.map (fun idx =>
    (idx, ((df.filter (fun r => r.1 == idx)).map (fun r => parse r.2.2)).min?))

/-- The single-zero fix applied to each reference code in `find_diabetics`:
`if len(item) < 6: dd.add(str(0) + item) else: dd.add(item)`. -/
def fixSixDigit (item : String) : String :=
  if item.length < 6 then "0" ++ item else item

/-- The comparison set `dd` built by `find_diabetics` from the reference code
list `drugs_used_in_diabetes.csv`. -/
def diabetesCodeSet (items : List String) : Finset String :=
  (items.map fixSixDigit).toFinset

/-- Left-zero-padding to exactly 6 characters, as the specification words it
(`fixed-width zero-padded 6-character codes`); stated from the spec to be
compared with `fixSixDigit`. -/
def zeroPad6 (s : String) : String :=
  String.mk (List.replicate (6 - s.length) '0') ++ s

/-- `MIN_SEQ_LENGTH` from `raw_data_utils.py`. -/
def MIN_SEQ_LENGTH : Nat := 10

/-- `timespan_encoding(days)` from `raw_data_utils.py`; the Python function
returns `str(enc)` and raises `ValueError` on negative input, embedded as
`Except` over the bucket number. -/
def timespan_encoding (days : Int) : Except String Nat :=
  if days < 0 then Except.error "Unsupported negative timespans"
  else if 0 ≤ days ∧ days ≤ 14 then Except.ok 0
  else if 14 < days ∧ days ≤ 30 then Except.ok 1
  else if 30 < days ∧ days ≤ 90 then Except.ok 2
  else if 90 < days ∧ days ≤ 360 then Except.ok 3
  else Except.ok 4

/-- A row of the merged MBS service table in `get_raw_data` after column
selection: service item, parsed date of service, region code.  Dates are
embedded as integers (day ordinals). -/
structure MbsRow where
  ITEM : Nat
  DOS : Int
  PINSTATE : Nat
deriving DecidableEq

/-- A token of the emitted sequence: a service item (`Sum.inl`) or an
inter-event gap in raw days (`Sum.inr`); `get_raw_data` finally joins them
with `' '.join(map(str, seq))`, which is a faithful rendering of this list. -/
abbrev Tok := Sum Nat Int

/-- The date-sorted window clip in `extract_sequence`:
`tmp = group.sort_values(by='DOS')` then
`tmp.loc[np.logical_and(tmp['DOS'] >= start_date, tmp['DOS'] <= end_date)]`. -/
def inWindow (startDate endDate : Int) (group : List MbsRow) : List MbsRow :=
  (List.insertionSort (fun a b => a.DOS ≤ b.DOS) group).filter
    (fun r => decide (startDate ≤ r.DOS) && decide (r.DOS ≤ endDate))

/-- `tmp['DOS'].values[1:] - tmp['DOS'].values[:-1]` converted to days: the
first-order differences of a list of dates. -/
def diffsList (l : List Int) : List Int :=
  (l.zip l.tail).map (fun x => x.2 - x.1)

/-- Modelled from the spec: `flatten` is imported from
`mbspbs10pc.concessionals_utils`, a module not among the provided sources;
the specification's interleaving step and the docstring of
`extract_sequences.py` (service items in even positions, day counts in odd
positions) make it list concatenation. -/
def flattenConcat (l : List (List α)) : List α := l.flatten

/-- The sequence built in `extract_sequence`:
`flatten([[item, dt] for item, dt in zip(tmp['ITEM'].values, timedeltas)])`
followed by appending the last item (which `zip` ignored). -/
def codeSeq (items : List Nat) (deltas : List Int) : List Tok :=
  flattenConcat ((items.zip deltas).map (fun x => [Sum.inl x.1, Sum.inr x.2])) ++
    (match items.getLast? with
     | some it => [Sum.inl it]
     | none => [])

/-- `extract_sequence(group)` from `get_raw_data`, restricted to the token
sequence (`'seq'`): `none` embeds the `np.nan` row that `.dropna()` removes. -/
def extract_sequence (startDate endDate : Int) (group : List MbsRow) : Option (List Tok) :=
  let tmp := inWindow startDate endDate group
  if tmp.length > MIN_SEQ_LENGTH then
    some (codeSeq (tmp.map (fun r => r.ITEM)) (diffsList (tmp.map (fun r => r.DOS))))
  else none

/-- The per-patient output row of `get_raw_data`: the group must first pass
`groupby('PIN').filter(lambda x: len(x) > 1)`, then survive
`extract_sequence`; `none` means the patient is dropped (no output row). -/
def get_raw_data_row (group : List MbsRow) (startDate endDate : Int) : Option (List Tok) :=
  if group.length > 1 then extract_sequence startDate endDate group else none

/-- The alternating shape the specification describes, with raw day gaps:
item token, gap to the next event, item token, ..., ending on an item token.
Stated independently of `codeSeq` to characterise it. -/
def altSeq : List MbsRow → List Tok
  | [] => []
  | [a] => [Sum.inl a.ITEM]
  | a :: b :: rest => Sum.inl a.ITEM :: Sum.inr (b.DOS - a.DOS) :: altSeq (b :: rest)

/-- Concrete PBS rows used to instantiate hypotheses of proved theorems. -/
def pbsRowsW : List PbsRow :=
  [⟨3, "05MAR2012", "X1", 10, 20⟩, ⟨8, "01JAN2012", "X2", 1, 1⟩, ⟨3, "01FEB2012", "X1", 0, 40⟩]

/-- Concrete MBS rows (12 events, 20 days apart) used for the gap-encoding
counterexample. -/
def mbsGroupW : List MbsRow :=
  [⟨1, 0, 0⟩, ⟨2, 20, 0⟩, ⟨3, 40, 0⟩, ⟨4, 60, 0⟩, ⟨5, 80, 0⟩, ⟨6, 100, 0⟩,
   ⟨7, 120, 0⟩, ⟨8, 140, 0⟩, ⟨9, 160, 0⟩, ⟨10, 180, 0⟩, ⟨11, 200, 0⟩, ⟨12, 220, 0⟩]

/-- A concrete one-patient per-year family used to instantiate hypotheses. -/
def ddW : Nat → DDYear :=
  fun y => if y = 2012 then [(7, ⟨["01JAN2012"], ["X1"]⟩)] else []

/-! Helper lemmas about the embedded combinators. -/

theorem lookup_map_mk {β : Type} (f : PId → β) (p : PId) : ∀ l : List PId,
    (l.map (fun k => (k, f k))).lookup p = if p ∈ l then some (f p) else none := by
  intro l
  induction l with
  | nil => simp
  | cons a t ih =>
    by_cases h : p = a
    · subst h
      simp [List.lookup]
    · have hb : (p == a) = false := beq_eq_false_iff_ne.mpr h
      simp [List.lookup, hb, ih, h]

theorem map_fst_map_mk {β : Type} (f : PId → β) (l : List PId) :
    (l.map (fun k => (k, f k))).map Prod.fst = l := by
  simp [List.map_map, Function.comp_def]

theorem mem_foldl_filter (g : Nat → PId → Bool) (p : PId) : ∀ (years : List Nat) (acc : List PId),
    p ∈ years.foldl (fun a y => a.filter (g y)) acc ↔ p ∈ acc ∧ ∀ y ∈ years, g y p = true := by
  intro years
  induction years with
  | nil => simp
  | cons y t ih =>
    intro acc
    rw [List.foldl_cons, ih]
    simp only [List.mem_filter, List.mem_cons]
    constructor
    · rintro ⟨⟨hacc, hy⟩, hall⟩
      refine ⟨hacc, ?_⟩
      rintro z (rfl | hz)
      · exact hy
      · exact hall z hz
    · rintro ⟨hacc, hall⟩
      exact ⟨⟨hacc, hall y (Or.inl rfl)⟩, fun z hz => hall z (Or.inr hz)⟩

theorem nodup_foldl_filter (g : Nat → PId → Bool) : ∀ (years : List Nat) (acc : List PId),
    acc.Nodup → (years.foldl (fun a y => a.filter (g y)) acc).Nodup := by
  intro years
  induction years with
  | nil => intro acc h; simpa using h
  | cons y t ih =>
    intro acc h
    rw [List.foldl_cons]
    exact ih _ (h.filter _)

theorem mem_foldl_union {β : Type} (h : β → Finset PId) (p : PId) : ∀ (l : List β) (acc : Finset PId),
    p ∈ l.foldl (fun a x => a ∪ h x) acc ↔ p ∈ acc ∨ ∃ x ∈ l, p ∈ h x := by
  intro l
  induction l with
  | nil => simp
  | cons b t ih =>
    intro acc
    rw [List.foldl_cons, ih]
    simp only [Finset.mem_union, List.mem_cons]
    constructor
    · rintro ((hacc | hb) | ⟨x, hx, hpx⟩)
      · exact Or.inl hacc
      · exact Or.inr ⟨b, Or.inl rfl, hb⟩
      · exact Or.inr ⟨x, Or.inr hx, hpx⟩
    · rintro (hacc | ⟨x, (rfl | hx), hpx⟩)
      · exact Or.inl (Or.inl hacc)
      · exact Or.inl (Or.inr hpx)
      · exact Or.inr ⟨x, hx, hpx⟩

theorem flatten_map_filterMap {α β : Type} (f : α → Option β) : ∀ l : List (List α),
    (l.map (List.filterMap f)).flatten = List.filterMap f l.flatten := by
  intro l
  induction l with
  | nil => simp
  | cons a t ih =>
    rw [List.map_cons, List.flatten_cons, List.flatten_cons, List.filterMap_append, ih]

theorem flatten_takeChunks {α : Type} : ∀ (ss : List Nat) (xs : List α),
    (takeChunks ss xs).flatten = xs.take ss.sum := by
  intro ss
  induction ss with
  | nil => intro xs; simp [takeChunks]
  | cons s t ih =>
    intro xs
    rw [takeChunks, List.flatten_cons, ih, List.sum_cons, List.take_add]

theorem sum_map_range_if (q r : Nat) : ∀ n : Nat,
    (((List.range n).map (fun i => if i < r then q + 1 else q)).sum) = n * q + min r n := by
  intro n
  induction n with
  | zero => simp
  | succ n ih =>
    rw [List.range_succ, List.map_append, List.sum_append, ih, Nat.succ_mul]
    by_cases h : n < r
    · simp only [List.map_cons, List.map_nil, if_pos h, List.sum_cons, List.sum_nil]
      omega
    · simp only [List.map_cons, List.map_nil, if_neg h, List.sum_cons, List.sum_nil]
      omega

theorem sum_splitSizes (L n : Nat) (hn : 1 ≤ n) : (splitSizes L n).sum = L := by
  have hm : L % n < n := Nat.mod_lt _ (by omega)
  rw [splitSizes, sum_map_range_if]
  have := Nat.div_add_mod L n
  omega

theorem flatten_arraySplit {α : Type} (xs : List α) (n : Nat) (hn : 1 ≤ n) :
    (arraySplit xs n).flatten = xs := by
  rw [arraySplit, flatten_takeChunks, sum_splitSizes _ _ hn, List.take_length]

theorem worker_lookup_none (pbsRows : List PbsRow) (coPayment : Option Int) (pin : PId)
    (hE : workerEntry pbsRows coPayment pin = none) : ∀ split : List PId,
    (worker pbsRows split coPayment).lookup pin = none := by
  intro split
  induction split with
  | nil => simp [worker]
  | cons a t ih =>
    rw [worker, List.filterMap_cons]
    cases hA : workerEntry pbsRows coPayment a with
    | none => simpa [hA, worker] using ih
    | some r =>
      by_cases h : pin = a
      · subst h
        rw [hE] at hA
        exact absurd hA (by simp)
      · have hb : (pin == a) = false := beq_eq_false_iff_ne.mpr h
        simpa [hA, List.lookup, hb, worker] using ih

theorem worker_lookup (pbsRows : List PbsRow) (coPayment : Option Int) (pin : PId) :
    ∀ split : List PId, pin ∈ split →
    (worker pbsRows split coPayment).lookup pin = workerEntry pbsRows coPayment pin := by
  intro split
  induction split with
  | nil => intro h; exact absurd h (by simp)
  | cons a t ih =>
    intro hmem
    rw [worker, List.filterMap_cons]
    cases hA : workerEntry pbsRows coPayment a with
    | none =>
      by_cases h : pin = a
      · subst h
        rw [hA]
        simpa [worker] using worker_lookup_none pbsRows coPayment pin hA t
      · have ht : pin ∈ t := by
          rcases List.mem_cons.mp hmem with h' | h'
          · exact absurd h' h
          · exact h'
        simpa [worker] using ih ht
    | some r =>
      by_cases h : pin = a
      · subst h
        simp [List.lookup, hA]
      · have ht : pin ∈ t := by
          rcases List.mem_cons.mp hmem with h' | h'
          · exact absurd h' h
          · exact h'
        have hb : (pin == a) = false := beq_eq_false_iff_ne.mpr h
        simpa [List.lookup, hb, worker] using ih ht

theorem yearsBefore_mem (Y y : Nat) : y ∈ yearsBefore Y ↔ 2008 ≤ y ∧ y < Y := by
  rw [yearsBefore, List.mem_reverse, List.mem_range']
  constructor
  · rintro ⟨i, hi, rfl⟩
    omega
  · rintro ⟨h1, h2⟩
    exact ⟨y - 2008, by omega, by omega⟩

theorem find_positive_keys (dd : Nat → DDYear) (cc : Finset PId) (parse : String → Int)
    (Y : Nat) (p : PId) :
    p ∈ (find_positive_samples dd cc parse Y).map Prod.fst ↔
      p ∈ ddKeys (dd Y) ∧ p ∈ cc ∧
        ∀ y, 2008 ≤ y → y < Y → ¬ (p ∈ ddKeys (dd y) ∧ p ∈ cc) := by
  simp only [find_positive_samples]
  rw [map_fst_map_mk, mem_foldl_filter]
  simp only [List.mem_filter, decide_eq_true_eq, yearsBefore_mem, and_imp]
  tauto

theorem find_positive_lookup (dd : Nat → DDYear) (cc : Finset PId) (parse : String → Int)
    (Y : Nat) (p : PId) (hp : p ∈ (find_positive_samples dd cc parse Y).map Prod.fst) :
    (find_positive_samples dd cc parse Y).lookup p =
      some ((((dd Y).lookup p).getD ⟨[], []⟩).SPPLY_DT.map parse).min? := by
  simp only [find_positive_samples] at hp ⊢
  rw [map_fst_map_mk] at hp
  rw [lookup_map_mk, if_pos hp]

/-- C1: `find_positive_samples` returns `p` exactly when `p` has a
qualifying diabetes-drug event in the target year (a key of the target-year
dictionary), is in the concession set, and appears in no prior year's
dictionary intersected with the concession set, for any year from 2008 to
the year before the target (the scan runs over those years in strict
descending order; the resulting membership is the stated conjunction); and
the date recorded for a positive patient is the minimum parsed supply date
of that patient's target-year record. -/
theorem claim1_find_positive_samples_spec :
    ∀ (dd : Nat → DDYear) (cc : Finset PId) (parse : String → Int) (Y : Nat) (p : PId),
      (p ∈ (find_positive_samples dd cc parse Y).map Prod.fst ↔
        p ∈ ddKeys (dd Y) ∧ p ∈ cc ∧
          ∀ y, 2008 ≤ y → y < Y → ¬ (p ∈ ddKeys (dd y) ∧ p ∈ cc))
      ∧ (∀ r : Record, p ∈ (find_positive_samples dd cc parse Y).map Prod.fst →
          (dd Y).lookup p = some r →
          (find_positive_samples dd cc parse Y).lookup p =
            some ((r.SPPLY_DT.map parse).min?)) := by
  intro dd cc parse Y p
  refine ⟨find_positive_keys dd cc parse Y p, ?_⟩
  intro r hp hr
  rw [find_positive_lookup dd cc parse Y p hp, hr, Option.getD_some]

/-- C3: the merged per-patient mapping of `find_diabetes_drugs_users` does
not depend on the parallelism degree: for any shard count between 1 and the
number of unique patient ids it equals the single-shard result, because the
shards cut the sorted unique id list into consecutive pieces whose
concatenation is that list (determinism across repeated runs is immediate
since the embedding is a pure function of the input). -/
theorem claim3_shard_count_irrelevant :
    ∀ (pbsRows : List PbsRow) (coPayment : Option Int) (n : Nat),
      1 ≤ n → n ≤ (npUnique (pbsRows.map (fun r => r.PTNT_ID))).length →
      find_diabetes_drugs_users pbsRows coPayment n =
        find_diabetes_drugs_users pbsRows coPayment 1 := by
  intro pbsRows coPayment n h1 _h2
  have key : ∀ m, 1 ≤ m → find_diabetes_drugs_users pbsRows coPayment m =
      (npUnique (pbsRows.map (fun r => r.PTNT_ID))).filterMap
        (fun pin => (workerEntry pbsRows coPayment pin).map (fun r => (pin, r))) := by
    intro m hm
    simp only [find_diabetes_drugs_users, worker]
    rw [flatten_map_filterMap, flatten_arraySplit _ _ hm]
  rw [key n h1, key 1 (le_refl 1)]

/-- Witness for C3 at a concrete input: three rows, two distinct patients,
two shards. -/
theorem claim3_witness :
    find_diabetes_drugs_users pbsRowsW none 2 = find_diabetes_drugs_users pbsRowsW none 1 :=
  claim3_shard_count_irrelevant pbsRowsW none 2 (by decide) (by decide)

/-- C6: the gap-bucket boundaries of `timespan_encoding`: day counts
0, 14, 15, 30, 31, 90, 91, 360, 361 map to buckets 0, 0, 1, 1, 2, 2, 3, 3, 4
respectively, and every negative day count raises the error instead of
returning a bucket. -/
theorem claim6_timespan_encoding_boundaries :
    (timespan_encoding 0 = Except.ok 0 ∧ timespan_encoding 14 = Except.ok 0 ∧
     timespan_encoding 15 = Except.ok 1 ∧ timespan_encoding 30 = Except.ok 1 ∧
     timespan_encoding 31 = Except.ok 2 ∧ timespan_encoding 90 = Except.ok 2 ∧
     timespan_encoding 91 = Except.ok 3 ∧ timespan_encoding 360 = Except.ok 3 ∧
     timespan_encoding 361 = Except.ok 4)
    ∧ ∀ d : Int, d < 0 →
        timespan_encoding d = Except.error "Unsupported negative timespans" := by
  constructor
  · exact ⟨rfl, rfl, rfl, rfl, rfl, rfl, rfl, rfl, rfl⟩
  · intro d hd
    unfold timespan_encoding
    rw [if_pos hd]

/-- C7 counterexample: the reference code `123` has fewer than 6 characters,
its fixed-width 6-character zero-padded form is `000123`, yet the comparison
set built by `find_diabetics` contains `0123` (a single zero prepended), not
`000123`. -/
theorem claim7_counterexample :
    ("123" : String).length < 6 ∧ zeroPad6 "123" = "000123" ∧
    zeroPad6 "123" ∉ diabetesCodeSet ["123"] ∧ ("0123" : String) ∈ diabetesCodeSet ["123"] := by
  refine ⟨by decide, by decide, by decide, by decide⟩

/-- C7 amended: when the reference codes are loaded, every code shorter than
6 characters gets exactly one `0` prepended before membership comparison; for
codes of length exactly 5 this coincides with the 6-character left-zero-padded
form, but for shorter codes it does not reach width 6. -/
theorem claim7_amended_single_zero_prefix :
    ∀ (items : List String) (c : String), c ∈ items → c.length < 6 →
      ("0" ++ c) ∈ diabetesCodeSet items ∧ (c.length = 5 → "0" ++ c = zeroPad6 c) := by
  intro items c hc hlen
  constructor
  · rw [diabetesCodeSet, List.mem_toFinset]
    refine List.mem_map.mpr ⟨c, hc, ?_⟩
    rw [fixSixDigit, if_pos hlen]
  · intro h5
    rw [zeroPad6, h5]
    congr 1

/-- Witness for C7's amended theorem at the concrete length-5 code 12345. -/
theorem claim7_witness :
    ("0" ++ "12345") ∈ diabetesCodeSet ["12345"] ∧
      (("12345" : String).length = 5 → "0" ++ "12345" = zeroPad6 "12345") :=
  claim7_amended_single_zero_prefix ["12345"] "12345" (by decide) (by decide)

/-- C8: for a patient id inside a worker's shard, the worker's mapping holds
an entry for that patient exactly when at least one row survives the patient
selection plus the optional co-payment filter (rows whose contribution plus
benefit amount is below the threshold are removed); a patient with no
qualifying row is omitted (lookup is `none`), and a present entry carries
exactly the supply dates and item codes of the qualifying rows. -/
theorem claim8_worker_entry_spec :
    ∀ (pbsRows : List PbsRow) (coPayment : Option Int) (split : List PId) (pin : PId),
      pin ∈ split →
      (worker pbsRows split coPayment).lookup pin =
        (if (copaymentFilter coPayment (patientChunk pbsRows pin)).length > 0 then
          some ⟨(copaymentFilter coPayment (patientChunk pbsRows pin)).map (fun r => r.SPPLY_DT),
                (copaymentFilter coPayment (patientChunk pbsRows pin)).map (fun r => r.ITM_CD)⟩
        else none) := by
  intro pbsRows coPayment split pin hmem
  rw [worker_lookup pbsRows coPayment pin split hmem]
  rfl

/-- Witness for C8 at a concrete shard: patient 3 with a co-payment
threshold of 5. -/
theorem claim8_witness :
    (worker pbsRowsW [3] (some 5)).lookup 3 =
      (if (copaymentFilter (some 5) (patientChunk pbsRowsW 3)).length > 0 then
        some ⟨(copaymentFilter (some 5) (patientChunk pbsRowsW 3)).map (fun r => r.SPPLY_DT),
              (copaymentFilter (some 5) (patientChunk pbsRowsW 3)).map (fun r => r.ITM_CD)⟩
      else none) :=
  claim8_worker_entry_spec pbsRowsW (some 5) [3] 3 (by decide)

/-- C9: a patient produces an output row only when their total matched event
count is strictly greater than 1 and their in-window event count is strictly
greater than `MIN_SEQ_LENGTH` (= 10); in particular exactly 10 in-window
events, or exactly 1 matched event overall, yields no output row. -/
theorem claim9_survival_strictness :
    ∀ (group : List MbsRow) (startDate endDate : Int),
      ((get_raw_data_row group startDate endDate).isSome = true →
        1 < group.length ∧ MIN_SEQ_LENGTH < (inWindow startDate endDate group).length)
      ∧ ((inWindow startDate endDate group).length = MIN_SEQ_LENGTH →
          get_raw_data_row group startDate endDate = none)
      ∧ (group.length = 1 → get_raw_data_row group startDate endDate = none) := by
  intro group s e
  refine ⟨?_, ?_, ?_⟩
  · intro h
    by_cases h1 : group.length > 1
    · refine ⟨h1, ?_⟩
      rw [get_raw_data_row, if_pos h1] at h
      simp only [extract_sequence] at h
      by_cases h2 : (inWindow s e group).length > MIN_SEQ_LENGTH
      · exact h2
      · rw [if_neg h2] at h
        simp at h
    · rw [get_raw_data_row, if_neg h1] at h
      simp at h
  · intro h10
    rw [get_raw_data_row]
    by_cases h1 : group.length > 1
    · rw [if_pos h1]
      simp only [extract_sequence]
      rw [if_neg (by omega)]
    · rw [if_neg h1]
  · intro h1
    rw [get_raw_data_row, if_neg (by omega)]

theorem metafterDf_eq_map (tdd : DDYear) (pos : List PId) (parse : String → Int) :
    metafterDf tdd pos parse =
      (metonlyDf tdd pos).map (fun r => (r.1, r.2.1, parse r.2.2)) := by
  simp only [metafterDf, metonlyDf, List.map_flatMap, List.map_map]
  rfl

theorem metonlyDf_pid_mem (tdd : DDYear) (pos : List PId) :
    ∀ row ∈ metonlyDf tdd pos, row.1 ∈ pos := by
  intro row h
  simp only [metonlyDf, List.mem_flatMap, List.mem_map] at h
  obtain ⟨idx, hidx, x, _, rfl⟩ := h
  exact hidx

theorem metonlyDf_filter_eq (tdd : DDYear) (p : PId) : ∀ pos : List PId,
    pos.Nodup → p ∈ pos →
    (metonlyDf tdd pos).filter (fun r => r.1 == p) =
      (((tdd.lookup p).getD ⟨[], []⟩).ITM_CD.zip
        ((tdd.lookup p).getD ⟨[], []⟩).SPPLY_DT).map (fun x => (p, x.1, x.2)) := by
  intro pos
  induction pos with
  | nil => intro _ h; exact absurd h (by simp)
  | cons a t ih =>
    intro hnd hmem
    simp only [metonlyDf, List.flatMap_cons, List.filter_append]
    by_cases h : p = a
    · subst h
      have h1 : (((((tdd.lookup p).getD ⟨[], []⟩).ITM_CD.zip
            ((tdd.lookup p).getD ⟨[], []⟩).SPPLY_DT).map (fun x => (p, x.1, x.2))).filter
            (fun r => r.1 == p)) =
          ((((tdd.lookup p).getD ⟨[], []⟩).ITM_CD.zip
            ((tdd.lookup p).getD ⟨[], []⟩).SPPLY_DT).map (fun x => (p, x.1, x.2))) := by
        rw [List.filter_eq_self]
        intro row hrow
        obtain ⟨x, _, rfl⟩ := List.mem_map.mp hrow
        simp
      have h2 : ((metonlyDf tdd t).filter (fun r => r.1 == p)) = [] := by
        rw [List.filter_eq_nil_iff]
        intro row hrow
        have := metonlyDf_pid_mem tdd t row hrow
        have hpt : p ∉ t := (List.nodup_cons.mp hnd).1
        simp only [beq_iff_eq]
        intro hEq
        exact hpt (hEq ▸ this)
      simp only [metonlyDf] at h2
      rw [h1, h2, List.append_nil]
    · have h1 : ((((tdd.lookup a).getD ⟨[], []⟩).ITM_CD.zip
            ((tdd.lookup a).getD ⟨[], []⟩).SPPLY_DT).map (fun x => (a, x.1, x.2))).filter
            (fun r => r.1 == p) = [] := by
        rw [List.filter_eq_nil_iff]
        intro row hrow
        obtain ⟨x, _, rfl⟩ := List.mem_map.mp hrow
        simp only [beq_iff_eq]
        exact fun hEq => h hEq.symm
      have ht : p ∈ t := by
        rcases List.mem_cons.mp hmem with h' | h'
        · exact absurd h' h
        · exact h'
      have := ih (List.nodup_cons.mp hnd).2 ht
      simp only [metonlyDf] at this
      rw [h1, List.nil_append, this]

theorem zip_map_parse (parse : String → Int) (p : PId) :
    ∀ (A B : List String), A.length = B.length →
    ((A.zip B).map (fun x => (p, x.1, x.2))).map (fun row => parse row.2.2) = B.map parse := by
  intro A
  induction A with
  | nil =>
    intro B hB
    have : B = [] := List.length_eq_zero.mp (by simpa using hB.symm)
    subst this
    rfl
  | cons a A ih =>
    intro B hB
    cases B with
    | nil => exact absurd hB (by simp)
    | cons b B =>
      simp only [List.zip_cons_cons, List.map_cons]
      rw [ih B (by simpa using hB)]

theorem find_metafter_mem_keys (tdd : DDYear) (met : Finset String) (pos : List PId)
    (parse : String → Int) (p : PId) :
    p ∈ (find_metafter tdd met pos parse).map Prod.fst ↔
      ((∃ row ∈ rowsOf (metafterDf tdd pos parse) p, row.2.1 ∈ met) ∧
        ∃ i, firstNonMetIdx met (rowsOf (metafterDf tdd pos parse) p) = some i ∧ i ≠ 0) := by
  simp only [find_metafter]
  rw [map_fst_map_mk, List.mem_filter, List.mem_dedup, List.mem_filterMap]
  constructor
  · rintro ⟨⟨row, hrow, hsel⟩, hpred⟩
    rw [Option.ite_none_right_eq_some, Option.some_inj] at hsel
    obtain ⟨hmet, hfst⟩ := hsel
    constructor
    · refine ⟨row, ?_, hmet⟩
      rw [rowsOf, List.mem_filter]
      exact ⟨hrow, by simp [hfst]⟩
    · rcases hidx : firstNonMetIdx met (rowsOf (metafterDf tdd pos parse) p) with _ | i
      · rw [hidx] at hpred
        exact absurd hpred (by simp)
      · rw [hidx] at hpred
        simp only [decide_eq_true_eq] at hpred
        exact ⟨i, rfl, hpred⟩
  · rintro ⟨⟨row, hrow, hmet⟩, i, hidx, hi⟩
    rw [rowsOf, List.mem_filter] at hrow
    obtain ⟨hdf, hfst⟩ := hrow
    constructor
    · refine ⟨row, hdf, ?_⟩
      rw [Option.ite_none_right_eq_some, Option.some_inj]
      exact ⟨hmet, by simpa using hfst⟩
    · rw [hidx]
      simpa using hi

theorem find_metafter_lookup (tdd : DDYear) (met : Finset String) (pos : List PId)
    (parse : String → Int) (p : PId) (v : Option Int)
    (h : (find_metafter tdd met pos parse).lookup p = some v) :
    v = ((rowsOf (metafterDf tdd pos parse) p).map (fun r => r.2.2)).min? := by
  simp only [find_metafter] at h
  rw [lookup_map_mk] at h
  by_cases hm : p ∈ (((metafterDf tdd pos parse).filterMap
      (fun r => if r.2.1 ∈ met then some r.1 else none)).dedup.filter (fun idx =>
        match firstNonMetIdx met (rowsOf (metafterDf tdd pos parse) idx) with
        | some i => decide (i ≠ 0)
        | none => false))
  · rw [if_pos hm, Option.some_inj] at h
    exact h.symm
  · rw [if_neg hm] at h
    exact absurd h (by simp)

theorem find_metonly_mem_keys (tdd : DDYear) (met : Finset String) (pos : List PId)
    (parse : String → Int) (p : PId) :
    p ∈ (find_metonly tdd met pos parse).map Prod.fst ↔
      p ∈ (metonlyDf tdd pos).map (fun r => r.1) ∧
        ∀ row ∈ (metonlyDf tdd pos).filter (fun r => r.1 == p), row.2.1 ∈ met := by
  simp only [find_metonly]
  rw [map_fst_map_mk, List.mem_filter, List.mem_dedup, List.all_eq_true]
  simp only [decide_eq_true_eq]

theorem find_metonly_lookup (tdd : DDYear) (met : Finset String) (pos : List PId)
    (parse : String → Int) (p : PId) (v : Option Int)
    (h : (find_metonly tdd met pos parse).lookup p = some v) :
    p ∈ (metonlyDf tdd pos).map (fun r => r.1) ∧
      v = (((metonlyDf tdd pos).filter (fun r => r.1 == p)).map
        (fun r => parse r.2.2)).min? := by
  simp only [find_metonly] at h
  rw [lookup_map_mk] at h
  by_cases hm : p ∈ ((metonlyDf tdd pos).map (fun r => r.1)).dedup.filter (fun idx =>
      ((metonlyDf tdd pos).filter (fun r => r.1 == idx)).all (fun r => decide (r.2.1 ∈ met)))
  · rw [if_pos hm, Option.some_inj] at h
    rw [List.mem_filter, List.mem_dedup] at hm
    exact ⟨hm.1, h.symm⟩
  · rw [if_neg hm] at h
    exact absurd h (by simp)

/-- C2: `find_metafter` classifies a patient as metformin-then-other exactly
when some row of the patient's target-year record carries a metformin item
code and, after sorting the patient's rows by supply date ascending, the
first position holding a non-metformin code exists and is not index 0; and
the date recorded for such a patient is the minimum parsed supply date over
the patient's entire target-year record, not just its metformin subset. -/
theorem claim2_find_metafter_spec :
    ∀ (tdd : DDYear) (met : Finset String) (pos : List PId) (parse : String → Int) (p : PId),
      (p ∈ (find_metafter tdd met pos parse).map Prod.fst ↔
        ((∃ row ∈ rowsOf (metafterDf tdd pos parse) p, row.2.1 ∈ met) ∧
          ∃ i, firstNonMetIdx met (rowsOf (metafterDf tdd pos parse) p) = some i ∧ i ≠ 0))
      ∧ (∀ v : Option Int, (find_metafter tdd met pos parse).lookup p = some v →
          v = ((rowsOf (metafterDf tdd pos parse) p).map (fun r => r.2.2)).min?) := by
  intro tdd met pos parse p
  exact ⟨find_metafter_mem_keys tdd met pos parse p,
    fun v hv => find_metafter_lookup tdd met pos parse p v hv⟩

/-- C4: disjointness within rule scope.  First, a patient returned by
`find_positive_samples` for a target year whose file is among the scanned PBS
files is never returned by `find_negative_samples` on the same data.  Second,
a patient classified metformin-only by `find_metonly` is never classified
metformin-then-other by `find_metafter` on the same inputs. -/
theorem claim4_cohort_disjointness :
    (∀ (pbsFiles : List PbsFileData) (dd : Nat → DDYear) (cc : Finset PId)
        (parse : String → Int) (Y : Nat) (f : PbsFileData),
        f ∈ pbsFiles → f.year = Y →
        ∀ p, p ∈ (find_positive_samples dd cc parse Y).map Prod.fst →
          p ∉ find_negative_samples pbsFiles dd cc)
    ∧ (∀ (tdd : DDYear) (met : Finset String) (pos : List PId)
        (parse : String → Int) (p : PId),
        p ∈ (find_metonly tdd met pos parse).map Prod.fst →
        p ∉ (find_metafter tdd met pos parse).map Prod.fst) := by
  constructor
  · intro pbsFiles dd cc parse Y f hf hY p hp hneg
    obtain ⟨hk, hc, -⟩ := (find_positive_keys dd cc parse Y p).mp hp
    simp only [find_negative_samples] at hneg
    rw [mem_foldl_union] at hneg
    rcases hneg with h0 | ⟨g, _, hpg⟩
    · exact absurd h0 (Finset.not_mem_empty p)
    · rw [Finset.mem_filter] at hpg
      obtain ⟨-, hnot⟩ := hpg
      apply hnot
      rw [Finset.mem_inter]
      refine ⟨?_, hc⟩
      rw [mem_foldl_union]
      right
      refine ⟨f, hf, ?_⟩
      rw [hY]
      exact List.mem_toFinset.mpr hk
  · intro tdd met pos parse p hmonly hmafter
    obtain ⟨-, hall⟩ := (find_metonly_mem_keys tdd met pos parse p).mp hmonly
    obtain ⟨-, i, hi, -⟩ := (find_metafter_mem_keys tdd met pos parse p).mp hmafter
    have hnone : firstNonMetIdx met (rowsOf (metafterDf tdd pos parse) p) = none := by
      rw [firstNonMetIdx, List.findIdx?_eq_none_iff]
      intro row hrow
      have hrow1 : row ∈ rowsOf (metafterDf tdd pos parse) p := by
        rw [sortByDate] at hrow
        exact (List.mem_insertionSort _).mp hrow
      rw [rowsOf, metafterDf_eq_map, List.filter_map] at hrow1
      obtain ⟨row0, hrow0, rfl⟩ := List.mem_map.mp hrow1
      have hrow0' : row0 ∈ (metonlyDf tdd pos).filter (fun r => r.1 == p) := by
        simpa [Function.comp_def] using hrow0
      have := hall row0 hrow0'
      simpa using this
    rw [hnone] at hi
    exact absurd hi (by simp)

theorem find_positive_keys_nodup (dd : Nat → DDYear) (cc : Finset PId)
    (parse : String → Int) (Y : Nat) (h : (ddKeys (dd Y)).Nodup) :
    ((find_positive_samples dd cc parse Y).map Prod.fst).Nodup := by
  simp only [find_positive_samples]
  rw [map_fst_map_mk]
  exact nodup_foldl_filter _ _ _ (h.filter _)

/-- C10: for a patient classified metformin-only (with the positive-cohort
id list as input, as the pipeline wires it), the date `find_metonly` records
equals the date `find_positive_samples` records for the same patient: both
are the minimum parsed supply date of the patient's target-year record. -/
theorem claim10_metonly_date_matches_positive :
    ∀ (dd : Nat → DDYear) (cc : Finset PId) (met : Finset String) (parse : String → Int)
      (Y : Nat) (p : PId) (r : Record) (v : Option Int),
      (ddKeys (dd Y)).Nodup →
      (dd Y).lookup p = some r →
      r.ITM_CD.length = r.SPPLY_DT.length →
      (find_metonly (dd Y) met ((find_positive_samples dd cc parse Y).map Prod.fst)
        parse).lookup p = some v →
      (find_positive_samples dd cc parse Y).lookup p = some v := by
  intro dd cc met parse Y p r v hnd hr hlen hlk
  obtain ⟨hpidmem, hv⟩ := find_metonly_lookup (dd Y) met
    ((find_positive_samples dd cc parse Y).map Prod.fst) parse p v hlk
  obtain ⟨row, hrow, hfst⟩ := List.mem_map.mp hpidmem
  have hp : p ∈ (find_positive_samples dd cc parse Y).map Prod.fst := by
    rw [← hfst]
    exact metonlyDf_pid_mem _ _ row hrow
  have hfilter := metonlyDf_filter_eq (dd Y) p
    ((find_positive_samples dd cc parse Y).map Prod.fst)
    (find_positive_keys_nodup dd cc parse Y hnd) hp
  rw [hfilter, hr, Option.getD_some] at hv
  rw [zip_map_parse parse p r.ITM_CD r.SPPLY_DT hlen] at hv
  rw [find_positive_lookup dd cc parse Y p hp, hr, Option.getD_some, ← hv]

/-- Witness for C10 at a one-patient concrete instance: patient 7, one
record in 2012, no prior-year records, concessional, metformin item. -/
theorem claim10_witness :
    (find_positive_samples ddW {7} (fun s => (s.length : Int)) 2012).lookup 7 =
      some (some 9) :=
  claim10_metonly_date_matches_positive ddW {7} {"X1"} (fun s => (s.length : Int))
    2012 7 ⟨["01JAN2012"], ["X1"]⟩ (some 9) (by decide) (by decide) (by decide) (by decide)

theorem codeSeq_eq_altSeq : ∀ tmp : List MbsRow,
    codeSeq (tmp.map (fun r => r.ITEM)) (diffsList (tmp.map (fun r => r.DOS))) = altSeq tmp
  | [] => rfl
  | [_] => rfl
  | a :: b :: rest => by
    have ih := codeSeq_eq_altSeq (b :: rest)
    simp only [codeSeq, flattenConcat, diffsList, List.map_cons, List.tail_cons,
      List.zip_cons_cons, List.flatten_cons, List.getLast?_cons_cons, altSeq] at ih ⊢
    rw [List.append_assoc, ih]
    rfl

theorem altSeq_ne_nil : ∀ l : List MbsRow, l ≠ [] → altSeq l ≠ []
  | [], h => absurd rfl h
  | [_], _ => by simp [altSeq]
  | _ :: _ :: _, _ => by simp [altSeq]

theorem altSeq_getLast : ∀ l : List MbsRow, l ≠ [] →
    ∃ it, (altSeq l).getLast? = some (Sum.inl it)
  | [], h => absurd rfl h
  | [a], _ => ⟨a.ITEM, rfl⟩
  | a :: b :: rest, _ => by
    obtain ⟨it, hit⟩ := altSeq_getLast (b :: rest) (by simp)
    refine ⟨it, ?_⟩
    show (Sum.inl a.ITEM :: Sum.inr (b.DOS - a.DOS) :: altSeq (b :: rest)).getLast? = _
    cases haux : altSeq (b :: rest) with
    | nil => exact absurd haux (altSeq_ne_nil (b :: rest) (by simp))
    | cons z zs =>
      rw [haux] at hit
      rw [List.getLast?_cons_cons, List.getLast?_cons_cons]
      exact hit

theorem altSeq_parity : ∀ (l : List MbsRow) (i : Nat) (t : Tok), (altSeq l)[i]? = some t →
    (i % 2 = 0 → t.isLeft = true) ∧ (i % 2 = 1 → t.isRight = true)
  | [], i, t, h => by simp [altSeq] at h
  | [a], 0, t, h => by
    simp only [altSeq, List.getElem?_cons_zero, Option.some_inj] at h
    subst h
    exact ⟨fun _ => rfl, fun h1 => absurd h1 (by decide)⟩
  | [a], n + 1, t, h => by
    simp [altSeq] at h
  | a :: b :: rest, 0, t, h => by
    simp only [altSeq, List.getElem?_cons_zero, Option.some_inj] at h
    subst h
    exact ⟨fun _ => rfl, fun h1 => absurd h1 (by decide)⟩
  | a :: b :: rest, 1, t, h => by
    simp only [altSeq, List.getElem?_cons_succ, List.getElem?_cons_zero,
      Option.some_inj] at h
    subst h
    exact ⟨fun h0 => absurd h0 (by decide), fun _ => rfl⟩
  | a :: b :: rest, n + 2, t, h => by
    simp only [altSeq, List.getElem?_cons_succ] at h
    have hrec := altSeq_parity (b :: rest) n t h
    refine ⟨fun hp => hrec.1 (by omega), fun hp => hrec.2 (by omega)⟩

/-- C5 amended: a surviving patient's emitted token sequence is the
alternating sequence over their date-sorted in-window events in which each
consecutive raw day gap (not its discrete bucket) sits between the two
service-item tokens it separates; the sequence ends on a service-item token,
even positions hold service items and odd positions hold gaps, and a patient
whose in-window event count does not exceed the minimum-length threshold
produces no output row at all. -/
theorem claim5_amended_raw_gap_sequence :
    (∀ (group : List MbsRow) (startDate endDate : Int) (s : List Tok),
        get_raw_data_row group startDate endDate = some s →
          s = altSeq (inWindow startDate endDate group) ∧
          List.Pairwise (fun a b : MbsRow => a.DOS ≤ b.DOS) (inWindow startDate endDate group) ∧
          MIN_SEQ_LENGTH < (inWindow startDate endDate group).length ∧
          (∃ it, s.getLast? = some (Sum.inl it)))
    ∧ (∀ (group : List MbsRow) (startDate endDate : Int),
        (inWindow startDate endDate group).length ≤ MIN_SEQ_LENGTH →
        get_raw_data_row group startDate endDate = none)
    ∧ (∀ (l : List MbsRow) (i : Nat) (t : Tok), (altSeq l)[i]? = some t →
        (i % 2 = 0 → t.isLeft = true) ∧ (i % 2 = 1 → t.isRight = true)) := by
  refine ⟨?_, ?_, altSeq_parity⟩
  · intro group startDate endDate s h
    by_cases h1 : group.length > 1
    · rw [get_raw_data_row, if_pos h1] at h
      simp only [extract_sequence] at h
      by_cases h2 : (inWindow startDate endDate group).length > MIN_SEQ_LENGTH
      · rw [if_pos h2, Option.some_inj] at h
        have hseq : s = altSeq (inWindow startDate endDate group) := by
          rw [← h, codeSeq_eq_altSeq]
        refine ⟨hseq, ?_, h2, ?_⟩
        · have hsorted : List.Pairwise (fun a b : MbsRow => a.DOS ≤ b.DOS)
              (List.insertionSort (fun a b : MbsRow => a.DOS ≤ b.DOS) group) := by
            haveI hT : IsTotal MbsRow (fun a b : MbsRow => a.DOS ≤ b.DOS) :=
              ⟨fun a b => le_total a.DOS b.DOS⟩
            haveI hR : IsTrans MbsRow (fun a b : MbsRow => a.DOS ≤ b.DOS) :=
              ⟨fun _ _ _ hab hbc => le_trans hab hbc⟩
            exact List.sorted_insertionSort _ _
          rw [inWindow]
          exact hsorted.filter _
        · rw [hseq]
          refine altSeq_getLast _ ?_
          intro hnil
          rw [hnil] at h2
          simp [MIN_SEQ_LENGTH] at h2
      · rw [if_neg h2] at h
        exact absurd h (by simp)
    · rw [get_raw_data_row, if_neg h1] at h
      exact absurd h (by simp)
  · intro group startDate endDate h10
    rw [get_raw_data_row]
    by_cases h1 : group.length > 1
    · rw [if_pos h1]
      simp only [extract_sequence]
      rw [if_neg (by omega)]
    · rw [if_neg h1]

/-- C5 counterexample: in the concrete 12-event group with consecutive gaps
of 20 days, the emitted token at the first odd position is the raw day count
20, although the fixed monotonic encoding sends a 20-day gap to bucket 1 and
20 is not 1 (nor any bucket value, which run from 0 through 4). -/
theorem claim5_counterexample :
    (get_raw_data_row mbsGroupW 0 1000).bind (fun s => s[1]?) = some (Sum.inr 20) ∧
    timespan_encoding 20 = Except.ok 1 ∧ (Sum.inr 20 : Tok) ≠ Sum.inr (1 : Int) ∧
    ¬ (20 : Int) ≤ 4 := by
  refine ⟨by decide, rfl, by decide, by decide⟩

end Mbspbs
